import Mathlib

/-!
Shallow embedding of the first-party logic of the `ai-analysis` repository:
the chat context retriever `findRelevantContent` (ChatInterface.tsx), the
search keyword extractor `extractKeywords` (azure-search.ts), and the
key-phrase extraction pipeline (`extractKeyPhrases` / `getMockKeyPhrases` in
the Azure language service module, plus the batch loop of
KeyPhraseExtraction.tsx).  JavaScript strings are modelled as Lean `String`
over their character lists; regex character classes, `split`, `includes`,
`trim`, `JSON.stringify` and `Set` deduplication are modelled explicitly.
-/

namespace AIAnalysis

/-- ASCII lowercase conversion of one character, modelling the effect of
JavaScript `String.prototype.toLowerCase` on the ASCII range (characters
outside the ASCII letters are left unchanged by this model). -/
def toLowerChar (c : Char) : Char :=
  if 'A' ≤ c ∧ c ≤ 'Z' then Char.ofNat (c.toNat + 32) else c

/-- ASCII uppercase conversion of one character, modelling
`String.prototype.toUpperCase` on the ASCII range. -/
def toUpperChar (c : Char) : Char :=
  if 'a' ≤ c ∧ c ≤ 'z' then Char.ofNat (c.toNat - 32) else c

/-- Lowercasing of a whole string, character by character. -/
def jsToLower (s : String) : String :=
  String.mk (s.toList.map toLowerChar)

/-- The JavaScript regex character class `\w`: ASCII letters, digits and
underscore. -/
def jsWordChar (c : Char) : Bool :=
  decide (('a' ≤ c ∧ c ≤ 'z') ∨ ('A' ≤ c ∧ c ≤ 'Z') ∨ ('0' ≤ c ∧ c ≤ '9') ∨ c = '_')

/-- The JavaScript regex character class `\s` (the whitespace characters that
matter here: space, tab, line feed, carriage return, vertical tab, form feed,
no-break space and the BOM). -/
def jsWs (c : Char) : Bool :=
  decide (c = ' ' ∨ c = '\t' ∨ c = '\n' ∨ c = '\r' ∨ c = Char.ofNat 11 ∨
    c = Char.ofNat 12 ∨ c = Char.ofNat 160 ∨ c = Char.ofNat 65279)

/-- JavaScript `str.split(sep)` for a single separator character: consecutive
separators produce empty tokens, and the empty string yields `[""]`.  The
`cur` argument accumulates the current token in reverse. -/
def splitChar (sep : Char) : List Char → List Char → List (List Char)
  | [], cur => [cur.reverse]
  | c :: cs, cur =>
    if c = sep then cur.reverse :: splitChar sep cs []
    else splitChar sep cs (c :: cur)

/-- JavaScript `str.split(/\s+/)`-style splitting: a run of separator
characters is a single delimiter, a leading run contributes a leading empty
token and a trailing run a trailing empty token.  `inRun` records whether the
previous character was a separator. -/
def splitRunsGo (isSep : Char → Bool) : List Char → List Char → Bool → List (List Char)
  | [], cur, _ => [cur.reverse]
  | c :: cs, cur, inRun =>
    if isSep c then
      if inRun then splitRunsGo isSep cs [] true
      else cur.reverse :: splitRunsGo isSep cs [] true
    else splitRunsGo isSep cs (c :: cur) false

/-- JavaScript `text.split(/\s+/)` on a whole string. -/
def jsSplitWs (s : String) : List String :=
  (splitRunsGo jsWs s.toList [] false).map String.mk

/-- JavaScript `s.trim()`: strip whitespace from both ends. -/
def jsTrim (s : String) : String :=
  String.mk (((s.toList.dropWhile jsWs).reverse.dropWhile jsWs).reverse)

/-- Normalisation step shared by both keyword extractors: lowercase the query
and replace every character that is neither a word character nor whitespace
by a space (the regex replace `/[^\w\s]/g → ' '`). -/
def normalizeQueryChars (q : String) : List Char :=
  (q.toList.map toLowerChar).map (fun c => if !(jsWordChar c) && !(jsWs c) then ' ' else c)

/-- Stop-word list of `findRelevantContent` in ChatInterface.tsx. -/
def stopWordsChat : List String :=
  ["a", "an", "the", "and", "or", "but", "is", "are", "was", "were",
   "of", "in", "to", "for", "with", "about", "by", "at", "on"]

/-- The keyword list computed by `findRelevantContent` in ChatInterface.tsx:
lowercase, replace `[^\w\s]` by spaces, split on the space character, keep
tokens of length greater than 2 that are not stop words. -/
def keywordsOf (query : String) : List String :=
  ((splitChar ' ' (normalizeQueryChars query) []).map String.mk).filter
    (fun w => decide (2 < w.length) && !(stopWordsChat.contains w))

/-- Scalar cell values of a spreadsheet row: string, number (modelled as an
integer), boolean or null. -/
inductive Value where
  | str (s : String)
  | num (n : Int)
  | bool (b : Bool)
  | null
deriving DecidableEq

/-- JavaScript string coercion `String(value)` as used in template literals. -/
def Value.display : Value → String
  | .str s => s
  | .num n => toString n
  | .bool b => if b then "true" else "false"
  | .null => "null"

/-- A row is an ordered association of column names to scalar values
(JavaScript object property order). -/
abbrev Row := List (String × Value)

/-- A dataset maps sheet names to ordered row lists, in sheet iteration
order (`Object.entries(documentData)`). -/
abbrev Dataset := List (String × List Row)

/-- Hexadecimal digit characters used by JSON `\u00XX` escapes. -/
def hexDigit (n : Nat) : Char :=
  if n < 10 then Char.ofNat (48 + n) else Char.ofNat (87 + n)

/-- Per-character JSON string escaping as performed by `JSON.stringify`. -/
def escapeChar (c : Char) : List Char :=
  if c = '"' then ['\\', '"']
  else if c = '\\' then ['\\', '\\']
  else if c = '\n' then ['\\', 'n']
  else if c = '\t' then ['\\', 't']
  else if c = '\r' then ['\\', 'r']
  else if c = Char.ofNat 8 then ['\\', 'b']
  else if c = Char.ofNat 12 then ['\\', 'f']
  else if c.toNat < 32 then
    ['\\', 'u', '0', '0', hexDigit (c.toNat / 16), hexDigit (c.toNat % 16)]
  else [c]

/-- JSON escaping of a character sequence. -/
def jsonEscape (s : List Char) : List Char :=
  (s.map escapeChar).flatten

/-- A JSON string literal (with quotes) for `s`, as a character list. -/
def jsonStrChars (s : String) : List Char :=
  '"' :: jsonEscape s.toList ++ ['"']

/-- JSON serialization of one scalar value, as a character list. -/
def Value.jsonChars : Value → List Char
  | .str s => jsonStrChars s
  | .num n => (toString n).toList
  | .bool b => (if b then "true" else "false").toList
  | .null => "null".toList

/-- Join character lists with a separator (`Array.prototype.join`). -/
def joinSepChars (sep : List Char) : List (List Char) → List Char
  | [] => []
  | [x] => x
  | x :: y :: xs => x ++ sep ++ joinSepChars sep (y :: xs)

/-- One `"key":value` member of a serialized row object. -/
def entryChars (kv : String × Value) : List Char :=
  jsonStrChars kv.1 ++ [':'] ++ kv.2.jsonChars

/-- `JSON.stringify(row)` as a character list: the row object with its
members in property order. -/
def jsonOfRowChars (r : Row) : List Char :=
  Char.ofNat 123 :: joinSepChars [','] (r.map entryChars) ++ [Char.ofNat 125]

/-- `JSON.stringify(row)` as a string. -/
def jsonOfRow (r : Row) : String :=
  String.mk (jsonOfRowChars r)

/-- JavaScript `hay.includes(needle)`: substring containment. -/
def jsIncludes (hay needle : String) : Bool :=
  decide (needle.toList <:+: hay.toList)

/-- The `key: value, key: value` rendering of a row used in snippets. -/
def formatRow (r : Row) : String :=
  String.intercalate ", " (r.map (fun kv => kv.1 ++ ": " ++ kv.2.display))

/-- Whether a row matches: at least one keyword is a substring of the
lowercased JSON serialization of the row
(`keywords.filter(k => rowStr.includes(k)).length > 0`). -/
def rowMatches (keywords : List String) (r : Row) : Bool :=
  decide (0 < ((keywords.filter (fun k => jsIncludes (jsToLower (jsonOfRow r)) k)).length))

/-- The snippet emitted for a matched row (1-based row index). -/
def rowSnippet (sheetName : String) (idx : Nat) (r : Row) : String :=
  "[From sheet \"" ++ sheetName ++ "\", row " ++ toString (idx + 1) ++ "]: " ++ formatRow r

/-- The matched-row snippets of one sheet, in row order. -/
def sheetSnippets (keywords : List String) (sheetName : String) (rows : List Row) : List String :=
  rows.enum.filterMap (fun p =>
    if rowMatches keywords p.2 then some (rowSnippet sheetName p.1 p.2) else none)

/-- All matched-row snippets, concatenated in sheet order then row order. -/
def matchedSnippets (query : String) (data : Dataset) : List String :=
  (data.map (fun s => sheetSnippets (keywordsOf query) s.1 s.2)).flatten

/-- The snippet emitted for a sheet's first row on the fallback path. -/
def sampleSnippet (sheetName : String) (r : Row) : String :=
  "[Sample from sheet \"" ++ sheetName ++ "\"]: " ++ formatRow r

/-- The sample fallback: one snippet per sheet with at least one row, built
from that sheet's first row. -/
def sampleFallback (data : Dataset) : List String :=
  data.filterMap (fun s =>
    match s.2 with
    | [] => none
    | r :: _ => some (sampleSnippet s.1 r))

/-- `findRelevantContent` of ChatInterface.tsx: matched snippets, truncated
to 20 when more than 20 matched, replaced by the sample fallback when none
matched. -/
def findRelevantContent (query : String) (data : Dataset) : List String :=
  if 20 < (matchedSnippets query data).length then (matchedSnippets query data).take 20
  else if (matchedSnippets query data).length = 0 then sampleFallback data
  else matchedSnippets query data

/-- The number of sheets of the dataset that have at least one row. -/
def countNonemptySheets (data : Dataset) : Nat :=
  (data.filter (fun s => !s.2.isEmpty)).length

/-- Stop-word list of `extractKeywords` in azure-search.ts (including the
duplicated entry "me", kept as in the source). -/
def stopWordsSearch : List String :=
  ["a", "about", "above", "after", "again", "against", "all", "am", "an", "and",
   "any", "are", "as", "at", "be", "because", "been", "before", "being", "below",
   "between", "both", "but", "by", "can", "did", "do", "does", "doing", "don",
   "down", "during", "each", "few", "for", "from", "further", "had", "has", "have",
   "having", "he", "her", "here", "hers", "herself", "him", "himself", "his",
   "how", "i", "if", "in", "into", "is", "it", "its", "itself", "just", "me",
   "more", "most", "my", "myself", "no", "nor", "not", "now", "of", "off", "on",
   "once", "only", "or", "other", "our", "ours", "ourselves", "out", "over", "own",
   "same", "she", "should", "so", "some", "such", "than", "that", "the", "their",
   "theirs", "them", "themselves", "then", "there", "these", "they", "this", "those",
   "through", "to", "too", "under", "until", "up", "very", "was", "we", "were",
   "what", "when", "where", "which", "while", "who", "whom", "why", "will", "with",
   "would", "you", "your", "yours", "yourself", "yourselves", "tell", "me", "give",
   "information", "explain", "show", "find", "search", "look"]

/-- The token list of `extractKeywords` in azure-search.ts: lowercase,
replace `[^\w\s]` by spaces, split on whitespace runs, keep tokens of length
greater than 1 that are not stop words. -/
def searchTokens (query : String) : List String :=
  ((splitRunsGo jsWs (normalizeQueryChars query) [] false).map String.mk).filter
    (fun w => decide (1 < w.length) && !(stopWordsSearch.contains w))

/-- The adjacent 2-token phrases of a token list, in order. -/
def twoGrams (ts : List String) : List String :=
  (ts.zip ts.tail).map (fun p => p.1 ++ " " ++ p.2)

/-- The adjacent 3-token phrases of a token list, in order. -/
def threeGrams (ts : List String) : List String :=
  (ts.zip (ts.tail.zip ts.tail.tail)).map (fun p => p.1 ++ " " ++ p.2.1 ++ " " ++ p.2.2)

/-- Insertion into a JavaScript `Set` materialised as an insertion-ordered
duplicate-free list. -/
def setAdd (acc : List String) (x : String) : List String :=
  if x ∈ acc then acc else acc ++ [x]

/-- `Array.from(new Set(l))`: deduplication keeping first occurrences in
order. -/
def jsSetDedup (l : List String) : List String :=
  l.foldl setAdd []

/-- `extractKeywords` of azure-search.ts: single tokens plus adjacent 2- and
3-token phrases, deduplicated. -/
def extractKeywords (query : String) : List String :=
  jsSetDedup (searchTokens query ++ twoGrams (searchTokens query) ++ threeGrams (searchTokens query))

/-- A document submitted to the text-analytics boundary. -/
structure KPDocument where
  id : String
  language : String
  text : String
deriving DecidableEq

/-- A per-document result returned by the text-analytics boundary: an
optional error and an optional key-phrase list. -/
structure DocResult where
  error : Option String
  keyPhrases : Option (List String)
deriving DecidableEq

/-- The text-analytics call `client.analyze("KeyPhraseExtraction", docs)`,
treated as an oracle that either returns per-document results or throws. -/
abbrev KPOracle := List KPDocument → Except String (List DocResult)

/-- JSON serialization of one document (fields in property order). -/
def jsonOfDocChars (d : KPDocument) : List Char :=
  Char.ofNat 123 ::
    (jsonStrChars "id" ++ [':'] ++ jsonStrChars d.id ++ [','] ++
     jsonStrChars "language" ++ [':'] ++ jsonStrChars d.language ++ [','] ++
     jsonStrChars "text" ++ [':'] ++ jsonStrChars d.text) ++ [Char.ofNat 125]

/-- `JSON.stringify` of a document array. -/
def jsonOfDocs (ds : List KPDocument) : String :=
  String.mk ('[' :: joinSepChars [','] (ds.map jsonOfDocChars) ++ [']'])

/-- Punctuation stripped by the mock extractor's `cleanWord` regex. -/
def mockPunct : List Char :=
  ['.', ',', '/', '#', '!', '$', '%', Char.ofNat 94, '&', '*', ';', ':',
   Char.ofNat 123, Char.ofNat 125, '=', '-', '_', Char.ofNat 96, '~', '(', ')']

/-- `word.replace(/[.,\/#!$%\^&\*;:{}=\-_`~()]/g, "")` of the mock
extractor. -/
def cleanWord (w : String) : String :=
  String.mk (w.toList.filter (fun c => !(mockPunct.contains c)))

/-- Whether the first character of a word is an uppercase letter, modelling
`w[0] === w[0].toUpperCase() && w[0] !== w[0].toLowerCase()`. -/
def firstIsUpper (w : String) : Bool :=
  match w.toList with
  | [] => false
  | c :: _ => decide (c = toUpperChar c) && !(decide (c = toLowerChar c))

/-- The trigger words of the mock extractor's second condition. -/
def importantWords : List String :=
  ["important", "significant", "key", "critical", "major"]

/-- The two set insertions performed at one non-initial word of the mock
extractor's loop: add the cleaned word when it is capitalised and longer than
3 characters, and again when the previous word is a trigger word. -/
def mockStep (p w : String) (acc : List String) : List String :=
  if importantWords.contains (jsToLower p) then
    setAdd
      (if decide (3 < (cleanWord w).length) && firstIsUpper (cleanWord w) then
        setAdd acc (cleanWord w)
      else acc) (cleanWord w)
  else
    if decide (3 < (cleanWord w).length) && firstIsUpper (cleanWord w) then
      setAdd acc (cleanWord w)
    else acc

/-- The indexed word loop of `getMockKeyPhrases`: nothing is added at the
first word (index 0), and at every later word `mockStep` runs with the
previous word. -/
def mockLoop : List String → Option String → List String → List String
  | [], _, acc => acc
  | w :: ws, prev, acc =>
    mockLoop ws (some w)
      (match prev with
       | none => acc
       | some p => mockStep p w acc)

/-- The fallback loop of `getMockKeyPhrases`: cleaned words longer than 6
characters. -/
def mockLongWords (words : List String) : List String :=
  words.foldl (fun acc w => if decide (6 < (cleanWord w).length) then setAdd acc (cleanWord w) else acc) []

/-- `getMockKeyPhrases` of the Azure language service module: capitalised or
trigger-preceded cleaned words, else long cleaned words, truncated to 10. -/
def getMockKeyPhrases (text : String) : List String :=
  (if mockLoop (jsSplitWs text) none [] = [] then mockLongWords (jsSplitWs text)
   else mockLoop (jsSplitWs text) none []).take 10

/-- The `string | Document[]` union accepted by `extractKeyPhrases`. -/
inductive KPInput where
  | str (s : String)
  | docs (ds : List KPDocument)

/-- The string passed to the mock extractor for a given input
(`typeof input === 'string' ? input : JSON.stringify(input)`). -/
def KPInput.mockText : KPInput → String
  | .str s => s
  | .docs ds => jsonOfDocs ds

/-- The result-collection loop of `extractKeyPhrases`: key phrases of every
per-document result that carries no error and has a key-phrase payload, in
order; erroneous results are skipped (only logged). -/
def collectKeyPhrases : List DocResult → List String
  | [] => []
  | r :: rs =>
    (if r.error = none ∧ r.keyPhrases.isSome then r.keyPhrases.getD [] else []) ++
      collectKeyPhrases rs

/-- `extractKeyPhrases` of the Azure language service module: with no
credentials return the mock phrases; otherwise filter out empty documents,
call the analysis oracle, collect per-document successes, and degrade to the
mock phrases when the call throws. -/
def extractKeyPhrases (creds : Bool) (oracle : KPOracle) (input : KPInput) : List String :=
  if creds = false then getMockKeyPhrases input.mockText
  else
    let documents : List KPDocument := match input with
      | .str s => [KPDocument.mk "1" "en" s]
      | .docs ds => ds
    let validDocuments := documents.filter
      (fun d => !(d.text == "") && decide (0 < (jsTrim d.text).length))
    if validDocuments.isEmpty then []
    else
      match oracle validDocuments with
      | .ok results => collectKeyPhrases results
      | .error _ => getMockKeyPhrases input.mockText

/-- Lookup of `row[col]` in a row (`undefined` becomes `none`). -/
def rowLookup (r : Row) (col : String) : Option Value :=
  (r.find? (fun kv => kv.1 == col)).map (fun kv => kv.2)

/-- The cell text used by KeyPhraseExtraction.tsx:
`value !== undefined && value !== null ? String(value) : ''`. -/
def cellText (r : Row) (col : String) : String :=
  match rowLookup r col with
  | none => ""
  | some .null => ""
  | some v => v.display

/-- The text of one row over the chosen columns: non-blank cell texts joined
with `". "`. -/
def rowText (cols : List String) (r : Row) : String :=
  String.intercalate ". " ((cols.map (cellText r)).filter (fun t => !(jsTrim t == "")))

/-- The documents built from one batch of rows (ids continue the running row
offset `base`); documents with empty text are dropped. -/
def mkDocs (cols : List String) (base : Nat) (batch : List Row) : List KPDocument :=
  (batch.enum.map (fun p =>
    KPDocument.mk (toString (base + p.1)) "en" (jsTrim (rowText cols p.2)))).filter
    (fun d => decide (0 < d.text.length))

/-- The text-bearing columns preferred by KeyPhraseExtraction.tsx. -/
def textColumnsOf (cols : List String) : List String :=
  cols.filter (fun col =>
    jsIncludes (jsToLower col) "description" || jsIncludes (jsToLower col) "comment" ||
    jsIncludes (jsToLower col) "text" || jsIncludes (jsToLower col) "note" ||
    jsIncludes (jsToLower col) "detail")

/-- The columns analysed for a sheet: the text-bearing ones when any exist,
otherwise all columns of the first row. -/
def columnsToUse (firstRow : Row) : List String :=
  if (textColumnsOf (firstRow.map (fun kv => kv.1))).isEmpty then firstRow.map (fun kv => kv.1)
  else textColumnsOf (firstRow.map (fun kv => kv.1))

/-- The contribution of one batch to a sheet's key phrases: nothing when all
its documents are empty, otherwise whatever `extractKeyPhrases` returns. -/
def batchContrib (creds : Bool) (oracle : KPOracle) (cols : List String) (base : Nat)
    (batch : List Row) : List String :=
  if (mkDocs cols base batch).isEmpty then []
  else extractKeyPhrases creds oracle (.docs (mkDocs cols base batch))

/-- The batch loop of `processSheets` in KeyPhraseExtraction.tsx starting at
row offset `base`: slices of 10 rows are processed in order and their key
phrases concatenated. -/
def processFrom (creds : Bool) (oracle : KPOracle) (cols : List String) (base : Nat) :
    List Row → List String
  | [] => []
  | r :: rest =>
    batchContrib creds oracle cols base ((r :: rest).take 10) ++
      processFrom creds oracle cols (base + 10) ((r :: rest).drop 10)
termination_by rows => rows.length
decreasing_by
  simp [List.length_drop]
  omega

/-- The batches (with their starting row offsets) that the loop visits. -/
def chunksFrom (base : Nat) : List Row → List (Nat × List Row)
  | [] => []
  | r :: rest => (base, (r :: rest).take 10) :: chunksFrom (base + 10) ((r :: rest).drop 10)
termination_by rows => rows.length
decreasing_by
  simp [List.length_drop]
  omega

/-- Splitting on one separator character written as a direct recursion, used
as the specification-side reading of "split on the space character". -/
def splitSpaceF (sep : Char) : List Char → List (List Char)
  | [] => [[]]
  | c :: cs =>
    if c = sep then [] :: splitSpaceF sep cs
    else
      match splitSpaceF sep cs with
      | [] => [[c]]
      | t :: ts => (c :: t) :: ts

/-- Keyword derivation following the specification text literally: lowercase,
replace `[^\w\s]` by spaces, split on whitespace, discard tokens of length at
most 2 and stop words. -/
def keywordsSpecWhitespace (query : String) : List String :=
  ((splitRunsGo jsWs (normalizeQueryChars query) [] false).map String.mk).filter
    (fun w => decide (2 < w.length) && !(stopWordsChat.contains w))

/-- Keyword derivation following the specification text with the split taken
on the space character only (the amended reading). -/
def keywordsSpecSpace (query : String) : List String :=
  ((splitSpaceF ' ' (normalizeQueryChars query)).map String.mk).filter
    (fun w => decide (2 < w.length) && !(stopWordsChat.contains w))

theorem splitSpaceF_ne_nil (sep : Char) (l : List Char) : splitSpaceF sep l ≠ [] := by
  induction l with
  | nil => simp [splitSpaceF]
  | cons c cs ih =>
    rw [splitSpaceF]
    split
    · simp
    · split
      · simp
      · simp

theorem splitChar_eq_aux (sep : Char) (l cur : List Char) :
    splitChar sep l cur =
      match splitSpaceF sep l with
      | [] => [cur.reverse]
      | t :: ts => (cur.reverse ++ t) :: ts := by
  induction l generalizing cur with
  | nil => simp [splitChar, splitSpaceF]
  | cons c cs ih =>
    rw [splitChar, splitSpaceF]
    by_cases hc : c = sep
    · rw [if_pos hc, if_pos hc, ih]
      rcases hs : splitSpaceF sep cs with _ | ⟨t, ts⟩
      · exact absurd hs (splitSpaceF_ne_nil sep cs)
      · simp
    · rw [if_neg hc, if_neg hc, ih]
      rcases hs : splitSpaceF sep cs with _ | ⟨t, ts⟩
      · exact absurd hs (splitSpaceF_ne_nil sep cs)
      · simp

theorem splitChar_eq_splitSpaceF (sep : Char) (l : List Char) :
    splitChar sep l [] = splitSpaceF sep l := by
  rw [splitChar_eq_aux]
  rcases hs : splitSpaceF sep l with _ | ⟨t, ts⟩
  · exact absurd hs (splitSpaceF_ne_nil sep l)
  · simp

/-- C1 (amended): for every query, the keyword list used by the relevance
selector equals the result of lowercasing, replacing every character that is
neither a word character nor whitespace with a space, splitting on the space
character U+0020 (other whitespace stays inside tokens), and discarding
tokens of length at most 2 and stop words; an empty query yields the empty
keyword list. -/
theorem keywordsOf_eq_space_split :
    (∀ q : String, keywordsOf q = keywordsSpecSpace q) ∧ keywordsOf "" = [] := by
  constructor
  · intro q
    unfold keywordsOf keywordsSpecSpace
    rw [splitChar_eq_splitSpaceF]
  · decide

/-- C1 counterexample: splitting is done on the space character, not on all
whitespace; a query with an embedded tab yields one tab-containing keyword
rather than the two whitespace-split keywords the claim prescribes. -/
theorem keywordsOf_ne_whitespace_split :
    keywordsOf "weather\tparis" ≠ keywordsSpecWhitespace "weather\tparis" := by
  decide

theorem sampleFallback_eq_nil_iff (D : Dataset) :
    sampleFallback D = [] ↔ ∀ s ∈ D, s.2 = [] := by
  rw [sampleFallback, List.filterMap_eq_nil_iff]
  constructor
  · intro h s hs
    have hsnone := h s hs
    rcases hrows : s.2 with _ | ⟨r, rest⟩
    · rfl
    · rw [hrows] at hsnone
      simp at hsnone
  · intro h s hs
    rw [h s hs]

theorem matchedSnippets_eq_nil_of_empty (q : String) (D : Dataset)
    (h : ∀ s ∈ D, s.2 = []) : matchedSnippets q D = [] := by
  rw [matchedSnippets, List.flatten_eq_nil_iff]
  intro l hl
  obtain ⟨s, hs, rfl⟩ := List.mem_map.mp hl
  rw [h s hs]
  rfl

/-- C2 (amended): the relevance selector returns the empty sequence exactly
when every sheet of the dataset has zero rows; in particular the empty
dataset yields the empty result, but a non-empty dataset consisting only of
zero-row sheets does too. -/
theorem findRelevantContent_nil_iff (q : String) (D : Dataset) :
    findRelevantContent q D = [] ↔ ∀ s ∈ D, s.2 = [] := by
  constructor
  · intro h
    rw [findRelevantContent] at h
    split at h
    · rename_i h20
      have hlen : (List.take 20 (matchedSnippets q D)).length = 0 := by rw [h]; rfl
      rw [List.length_take] at hlen
      omega
    · rename_i h20
      split at h
      · exact (sampleFallback_eq_nil_iff D).mp h
      · rename_i h0
        exact absurd (congrArg List.length h) (by simpa using h0)
  · intro hall
    have hm := matchedSnippets_eq_nil_of_empty q D hall
    rw [findRelevantContent, hm]
    simp [(sampleFallback_eq_nil_iff D).mpr hall]

/-- C2 counterexample: a non-empty dataset whose only sheet has zero rows
makes the relevance selector return the empty sequence, refuting "possibly
empty only when the dataset itself is empty". -/
theorem findRelevantContent_nil_counterexample :
    findRelevantContent "xyz" [("Sheet1", ([] : List Row))] = [] ∧
    ([("Sheet1", ([] : List Row))] : Dataset) ≠ [] := by
  constructor
  · decide
  · decide

/-- C2 witness: the amended characterisation applied to a concrete dataset
of two zero-row sheets. -/
theorem findRelevantContent_nil_iff_witness :
    findRelevantContent "abc" [("S1", ([] : List Row)), ("S2", ([] : List Row))] = [] :=
  (findRelevantContent_nil_iff "abc" [("S1", []), ("S2", [])]).mpr (by decide)

theorem rowMatches_nil_keywords (r : Row) : rowMatches [] r = false := rfl

/-- C4: whenever zero rows match (in particular whenever the derived keyword
set is empty), the relevance selector returns the sample fallback: one
snippet per non-empty sheet built from its first row, with no 20-item cap
applied. -/
theorem no_match_gives_sample_fallback :
    (∀ (q : String) (D : Dataset), matchedSnippets q D = [] →
        findRelevantContent q D = sampleFallback D) ∧
    (∀ (q : String) (D : Dataset), keywordsOf q = [] →
        findRelevantContent q D = sampleFallback D) := by
  constructor
  · intro q D h
    rw [findRelevantContent, h]
    simp
  · intro q D h
    have hm : matchedSnippets q D = [] := by
      rw [matchedSnippets, List.flatten_eq_nil_iff]
      intro l hl
      obtain ⟨s, hs, rfl⟩ := List.mem_map.mp hl
      rw [sheetSnippets, List.filterMap_eq_nil_iff]
      intro p hp
      rw [h, rowMatches_nil_keywords]
      simp
    rw [findRelevantContent, hm]
    simp

/-- C4 witness: a query with no match on the example dataset takes the
fallback path. -/
theorem no_match_gives_sample_fallback_witness :
    matchedSnippets "xyz"
        [("Sheet1", [[("city", Value.str "Paris"), ("note", Value.str "nice weather")]])] = [] ∧
    findRelevantContent "xyz"
        [("Sheet1", [[("city", Value.str "Paris"), ("note", Value.str "nice weather")]])] =
      sampleFallback
        [("Sheet1", [[("city", Value.str "Paris"), ("note", Value.str "nice weather")]])] :=
  ⟨by decide, no_match_gives_sample_fallback.1 _ _ (by decide)⟩

/-- C5: on the dataset with one sheet "Sheet1" holding the single row
city: Paris, note: nice weather, the query "weather in Paris" derives exactly
the keywords "weather" and "paris" (the stop word "in" is dropped), matches
the one row case-insensitively, and returns exactly the one snippet with the
original value case preserved. -/
theorem example_weather_in_paris :
    keywordsOf "weather in Paris" = ["weather", "paris"] ∧
    findRelevantContent "weather in Paris"
        [("Sheet1", [[("city", Value.str "Paris"), ("note", Value.str "nice weather")]])] =
      ["[From sheet \"Sheet1\", row 1]: city: Paris, note: nice weather"] := by
  constructor
  · decide
  · decide

/-- C6: the relevance selector is a pure function of the query and dataset,
so repeated calls with identical arguments yield identical output, including
identical ordering. -/
theorem findRelevantContent_deterministic :
    ∀ (q : String) (D : Dataset), findRelevantContent q D = findRelevantContent q D :=
  fun _ _ => rfl

theorem sampleFallback_length (D : Dataset) :
    (sampleFallback D).length = countNonemptySheets D := by
  induction D with
  | nil => rfl
  | cons s rest ih =>
    rcases s with ⟨name, rows⟩
    rcases rows with _ | ⟨r, rs⟩
    · simpa [sampleFallback, countNonemptySheets, List.filterMap_cons, List.filter_cons]
        using ih
    · simpa [sampleFallback, countNonemptySheets, List.filterMap_cons, List.filter_cons]
        using ih

/-- C3: when more than 20 row snippets match, the relevance selector returns
exactly the first 20 of them in sheet-then-row order (prefix truncation, no
re-ranking), and for every dataset and query the result length is at most
max 20 (number of non-empty sheets). -/
theorem truncation_to_first_twenty :
    (∀ (q : String) (D : Dataset), 20 < (matchedSnippets q D).length →
        findRelevantContent q D = (matchedSnippets q D).take 20) ∧
    (∀ (q : String) (D : Dataset),
        (findRelevantContent q D).length ≤ max 20 (countNonemptySheets D)) := by
  constructor
  · intro q D h
    rw [findRelevantContent, if_pos h]
  · intro q D
    rw [findRelevantContent]
    split
    · rw [List.length_take]
      exact le_max_of_le_left (min_le_left _ _)
    · split
      · rw [sampleFallback_length]
        exact le_max_right _ _
      · rename_i h20 h0
        exact le_max_of_le_left (by omega)

/-- C3 witness: a dataset with 25 matching rows yields exactly the first 20
snippets in order. -/
theorem truncation_to_first_twenty_witness :
    20 < (matchedSnippets "weather"
        [("Data", List.replicate 25 [("note", Value.str "weather")])]).length ∧
    findRelevantContent "weather"
        [("Data", List.replicate 25 [("note", Value.str "weather")])] =
      (matchedSnippets "weather"
        [("Data", List.replicate 25 [("note", Value.str "weather")])]).take 20 :=
  ⟨by decide, truncation_to_first_twenty.1 _ _ (by decide)⟩

theorem mem_setAdd (acc : List String) (x a : String) :
    a ∈ setAdd acc x ↔ a ∈ acc ∨ a = x := by
  rw [setAdd]
  split
  · rename_i hx
    constructor
    · exact Or.inl
    · rintro (h | rfl)
      · exact h
      · exact hx
  · simp

theorem nodup_setAdd (acc : List String) (x : String) (h : acc.Nodup) :
    (setAdd acc x).Nodup := by
  rw [setAdd]
  split
  · exact h
  · rename_i hx
    simp [List.nodup_append, h, hx]

theorem mem_foldl_setAdd (l : List String) (acc : List String) (a : String) :
    a ∈ l.foldl setAdd acc ↔ a ∈ acc ∨ a ∈ l := by
  induction l generalizing acc with
  | nil => simp
  | cons x xs ih =>
    rw [List.foldl_cons, ih, mem_setAdd]
    simp [or_assoc]

theorem nodup_foldl_setAdd (l : List String) (acc : List String) (h : acc.Nodup) :
    (l.foldl setAdd acc).Nodup := by
  induction l generalizing acc with
  | nil => exact h
  | cons x xs ih => exact ih _ (nodup_setAdd _ _ h)

theorem splitChar_no_sep (sep : Char) (l : List Char) :
    ∀ (cur : List Char), sep ∉ cur → ∀ t ∈ splitChar sep l cur, sep ∉ t := by
  induction l with
  | nil =>
    intro cur hcur t ht
    simp [splitChar] at ht
    subst ht
    simpa using hcur
  | cons c cs ih =>
    intro cur hcur t ht
    rw [splitChar] at ht
    by_cases hc : c = sep
    · rw [if_pos hc] at ht
      rcases List.mem_cons.mp ht with rfl | hmem
      · simpa using hcur
      · exact ih [] (by simp) t hmem
    · rw [if_neg hc] at ht
      refine ih (c :: cur) ?_ t ht
      simp only [List.mem_cons, not_or]
      exact ⟨fun e => hc e.symm, hcur⟩

/-- C7: the search keyword extractor returns a duplicate-free list whose
members are exactly the surviving tokens together with all adjacent 2-token
and 3-token phrases over them, while every keyword tested by the chat context
selector contains no space, hence is a single token and never a multi-word
phrase. -/
theorem extractKeywords_ngrams_vs_single :
    (∀ q : String, (extractKeywords q).Nodup ∧
        ∀ p : String, p ∈ extractKeywords q ↔
          (p ∈ searchTokens q ∨ p ∈ twoGrams (searchTokens q) ∨
           p ∈ threeGrams (searchTokens q))) ∧
    (∀ (q k : String), k ∈ keywordsOf q → ' ' ∉ k.toList) := by
  constructor
  · intro q
    constructor
    · exact nodup_foldl_setAdd _ _ List.nodup_nil
    · intro p
      rw [extractKeywords, jsSetDedup, mem_foldl_setAdd]
      simp [or_assoc]
  · intro q k hk
    have hk2 := (List.mem_filter.mp hk).1
    obtain ⟨t, ht, rfl⟩ := List.mem_map.mp hk2
    have hns : (' ' : Char) ∉ t := splitChar_no_sep ' ' _ [] (by simp) t ht
    simpa using hns

/-- C7 witness: a concrete keyword of the chat selector contains no space. -/
theorem extractKeywords_ngrams_vs_single_witness :
    "weather" ∈ keywordsOf "weather in Paris" ∧ ' ' ∉ "weather".toList :=
  ⟨by decide, extractKeywords_ngrams_vs_single.2 "weather in Paris" "weather" (by decide)⟩

theorem collectKeyPhrases_eq_flatten (rs : List DocResult) :
    collectKeyPhrases rs =
      (rs.filterMap (fun r => if r.error = none then r.keyPhrases else none)).flatten := by
  induction rs with
  | nil => rfl
  | cons r rest ih =>
    rw [collectKeyPhrases, ih, List.filterMap_cons]
    rcases herr : r.error with _ | e
    · rcases hkp : r.keyPhrases with _ | ks
      · simp [herr, hkp]
      · simp [herr, hkp]
    · simp [herr]

theorem processFrom_eq_aux (creds : Bool) (oracle : KPOracle) (cols : List String) :
    ∀ (n : Nat) (base : Nat) (rows : List Row), rows.length ≤ n →
      processFrom creds oracle cols base rows =
        ((chunksFrom base rows).map
          (fun c => batchContrib creds oracle cols c.1 c.2)).flatten := by
  intro n
  induction n with
  | zero =>
    intro base rows h
    have : rows = [] := List.eq_nil_of_length_eq_zero (Nat.le_zero.mp h)
    subst this
    simp [processFrom, chunksFrom]
  | succ n ih =>
    intro base rows h
    rcases rows with _ | ⟨r, rest⟩
    · simp [processFrom, chunksFrom]
    · rw [processFrom, chunksFrom, List.map_cons, List.flatten_cons]
      congr 1
      apply ih
      rw [List.length_drop, List.length_cons]
      rw [List.length_cons] at h
      omega

/-- C8: a per-document error in a key-phrase batch result does not abort
processing — the collected key phrases are exactly the concatenated phrases
of the error-free per-document results — and the batch loop of a sheet is the
independent concatenation of its batches' contributions, so an error or a
thrown call in one batch (which `extractKeyPhrases` converts into mock
phrases rather than an exception) never prevents later batches of the same
sheet from being processed. -/
theorem batch_errors_do_not_abort :
    (∀ rs : List DocResult,
        collectKeyPhrases rs =
          (rs.filterMap (fun r => if r.error = none then r.keyPhrases else none)).flatten) ∧
    (∀ (creds : Bool) (oracle : KPOracle) (cols : List String) (base : Nat) (rows : List Row),
        processFrom creds oracle cols base rows =
          ((chunksFrom base rows).map
            (fun c => batchContrib creds oracle cols c.1 c.2)).flatten) := by
  constructor
  · exact collectKeyPhrases_eq_flatten
  · intro creds oracle cols base rows
    exact processFrom_eq_aux creds oracle cols rows.length base rows le_rfl

theorem nodup_mockStep (p w : String) (acc : List String) (h : acc.Nodup) :
    (mockStep p w acc).Nodup := by
  rw [mockStep]
  split
  · split
    · exact nodup_setAdd _ _ (nodup_setAdd _ _ h)
    · exact nodup_setAdd _ _ h
  · split
    · exact nodup_setAdd _ _ h
    · exact h

theorem nodup_mockLoop (ws : List String) :
    ∀ (prev : Option String) (acc : List String), acc.Nodup → (mockLoop ws prev acc).Nodup := by
  induction ws with
  | nil => exact fun _ _ h => h
  | cons w rest ih =>
    intro prev acc h
    rcases prev with _ | p
    · exact ih _ _ h
    · exact ih _ _ (nodup_mockStep _ _ _ h)

theorem nodup_mockLongWords (ws : List String) :
    ∀ acc : List String, acc.Nodup →
      (ws.foldl (fun acc w =>
        if decide (6 < (cleanWord w).length) then setAdd acc (cleanWord w) else acc) acc).Nodup := by
  induction ws with
  | nil => exact fun _ h => h
  | cons w rest ih =>
    intro acc h
    rw [List.foldl_cons]
    apply ih
    split
    · exact nodup_setAdd _ _ h
    · exact h

/-- C10: with absent credentials `extractKeyPhrases` always returns the mock
key-phrase list of the input's text, and for every input text that list has
at most 10 entries and no duplicates. -/
theorem mock_keyphrases_capped_and_nodup :
    (∀ (oracle : KPOracle) (input : KPInput),
        extractKeyPhrases false oracle input = getMockKeyPhrases input.mockText) ∧
    (∀ text : String,
        (getMockKeyPhrases text).length ≤ 10 ∧ (getMockKeyPhrases text).Nodup) := by
  constructor
  · intro oracle input
    rfl
  · intro text
    constructor
    · rw [getMockKeyPhrases, List.length_take]
      exact min_le_left _ _
    · rw [getMockKeyPhrases]
      have hbody :
          (if mockLoop (jsSplitWs text) none [] = [] then mockLongWords (jsSplitWs text)
           else mockLoop (jsSplitWs text) none []).Nodup := by
        split
        · exact nodup_mockLongWords _ _ List.nodup_nil
        · exact nodup_mockLoop _ _ _ List.nodup_nil
      exact hbody.sublist (List.take_sublist _ _)

theorem jsIncludes_iff (hay needle : String) :
    jsIncludes hay needle = true ↔ needle.toList <:+: hay.toList := by
  rw [jsIncludes]
  exact decide_eq_true_iff

theorem rowMatches_of_keyword (kws : List String) (r : Row) (k : String) (hk : k ∈ kws)
    (h : jsIncludes (jsToLower (jsonOfRow r)) k = true) : rowMatches kws r = true := by
  rw [rowMatches]
  apply decide_eq_true
  apply List.length_pos.mpr
  exact List.ne_nil_of_mem (List.mem_filter.mpr ⟨hk, h⟩)

theorem rowMatches_eq_any (kws : List String) (r : Row) :
    rowMatches kws r = kws.any (fun k => jsIncludes (jsToLower (jsonOfRow r)) k) := by
  rcases hb : kws.any (fun k => jsIncludes (jsToLower (jsonOfRow r)) k) with _ | _
  · have hnil : kws.filter (fun k => jsIncludes (jsToLower (jsonOfRow r)) k) = [] := by
      rw [List.filter_eq_nil_iff]
      intro a ha
      simp [List.any_eq_false.mp hb a ha]
    rw [rowMatches, hnil]
    rfl
  · obtain ⟨a, ha, hpa⟩ := List.any_eq_true.mp hb
    exact rowMatches_of_keyword kws r a ha hpa

theorem infix_map_decomp (f : Char → Char) (l k : List Char) (h : k <:+: l.map f) :
    ∃ w, w <:+: l ∧ w.map f = k := by
  obtain ⟨s, t, hst⟩ := h
  have hst2 : l.map f = s ++ (k ++ t) := by
    rw [← hst]
    simp
  rw [List.map_eq_append_iff] at hst2
  obtain ⟨ls, lrest, rfl, hs, hrest⟩ := hst2
  rw [List.map_eq_append_iff] at hrest
  obtain ⟨lk, lt, rfl, hk2, ht⟩ := hrest
  exact ⟨lk, ⟨ls, lt, by simp⟩, hk2⟩

theorem isInfix_map (f : Char → Char) (l₁ l₂ : List Char) (h : l₁ <:+: l₂) :
    l₁.map f <:+: l₂.map f := by
  obtain ⟨s, t, rfl⟩ := h
  exact ⟨s.map f, t.map f, by simp⟩

theorem escapeChar_eq_self_of_word_range (c : Char)
    (h : (48 ≤ c.toNat ∧ c.toNat ≤ 57) ∨ (65 ≤ c.toNat ∧ c.toNat ≤ 90) ∨
      c.toNat = 95 ∨ (97 ≤ c.toNat ∧ c.toNat ≤ 122)) :
    escapeChar c = [c] := by
  have h1 : c ≠ '"' := by
    rintro rfl
    exact absurd h (by decide)
  have h2 : c ≠ '\\' := by
    rintro rfl
    exact absurd h (by decide)
  have h3 : c ≠ '\n' := by
    rintro rfl
    exact absurd h (by decide)
  have h4 : c ≠ '\t' := by
    rintro rfl
    exact absurd h (by decide)
  have h5 : c ≠ '\r' := by
    rintro rfl
    exact absurd h (by decide)
  have h6 : c ≠ Char.ofNat 8 := by
    rintro rfl
    exact absurd h (by decide)
  have h7 : c ≠ Char.ofNat 12 := by
    rintro rfl
    exact absurd h (by decide)
  have h8 : ¬ (c.toNat < 32) := by omega
  simp [escapeChar, h1, h2, h3, h4, h5, h6, h7, h8]

theorem escapeChar_eq_self (c : Char) (h : jsWordChar (toLowerChar c) = true) :
    escapeChar c = [c] := by
  apply escapeChar_eq_self_of_word_range
  by_cases hup : 'A' ≤ c ∧ c ≤ 'Z'
  · have hup2 : 65 ≤ c.toNat ∧ c.toNat ≤ 90 := by simpa [Char.le_def] using hup
    omega
  · rw [toLowerChar, if_neg hup] at h
    rw [jsWordChar, decide_eq_true_iff] at h
    rcases h with h | h | h | h
    · have h0 : 97 ≤ c.toNat ∧ c.toNat ≤ 122 := by simpa [Char.le_def] using h
      omega
    · exact absurd h hup
    · have h0 : 48 ≤ c.toNat ∧ c.toNat ≤ 57 := by simpa [Char.le_def] using h
      omega
    · subst h
      decide

theorem jsonEscape_eq_self (w : List Char) (h : ∀ c ∈ w, escapeChar c = [c]) :
    jsonEscape w = w := by
  induction w with
  | nil => rfl
  | cons c cs ih =>
    have htail : jsonEscape cs = cs := ih (fun x hx => h x (List.mem_cons_of_mem _ hx))
    rw [jsonEscape, List.map_cons, List.flatten_cons, h c (List.mem_cons_self c cs)]
    rw [show (cs.map escapeChar).flatten = jsonEscape cs from rfl, htail]
    rfl

theorem jsonEscape_append (a b : List Char) :
    jsonEscape (a ++ b) = jsonEscape a ++ jsonEscape b := by
  rw [jsonEscape, jsonEscape, jsonEscape, List.map_append, List.flatten_append]

theorem mem_infix_joinSepChars (sep : List Char) (parts : List (List Char)) (x : List Char)
    (h : x ∈ parts) : x <:+: joinSepChars sep parts := by
  induction parts with
  | nil => simp at h
  | cons p ps ih =>
    rcases ps with _ | ⟨p2, ps2⟩
    · simp at h
      subst h
      exact List.infix_rfl
    · rcases List.mem_cons.mp h with rfl | hmem
      · exact ⟨[], sep ++ joinSepChars sep (p2 :: ps2), by simp [joinSepChars]⟩
      · obtain ⟨s, t, hst⟩ := ih hmem
        refine ⟨p ++ sep ++ s, t, ?_⟩
        rw [joinSepChars, ← hst]
        simp

theorem jsonEscape_col_in_row (r : Row) (col : String) (v : Value) (h : (col, v) ∈ r) :
    jsonEscape col.toList <:+: jsonOfRowChars r := by
  have h1 : jsonEscape col.toList <:+: entryChars (col, v) := by
    rw [entryChars, jsonStrChars]
    exact ⟨['"'], ['"'] ++ [':'] ++ Value.jsonChars v, by simp⟩
  have h2 : entryChars (col, v) <:+: joinSepChars [','] (r.map entryChars) :=
    mem_infix_joinSepChars _ _ _ (List.mem_map_of_mem _ h)
  have h3 : joinSepChars [','] (r.map entryChars) <:+: jsonOfRowChars r := by
    rw [jsonOfRowChars]
    exact ⟨[Char.ofNat 123], [Char.ofNat 125], by simp⟩
  exact h1.trans (h2.trans h3)

/-- C9 (amended): the relevance selector's row matching is performed on the
lowercased JSON serialization of the whole row object — column names and
JSON punctuation included — so a row is selected whenever a keyword made of
word characters is a case-insensitive substring of one of its column names,
even when no cell value contains any keyword; a keyword containing embedded
whitespace such as a tab can nevertheless fail to match a column name
containing that character, because JSON serialization escapes it. -/
theorem rowMatching_on_serialized_row :
    (∀ (kws : List String) (r : Row),
        rowMatches kws r = kws.any (fun k => jsIncludes (jsToLower (jsonOfRow r)) k)) ∧
    (∀ (q : String) (r : Row) (col : String) (v : Value) (k : String),
        (col, v) ∈ r → k ∈ keywordsOf q →
        (∀ c ∈ k.toList, jsWordChar c = true) →
        jsIncludes (jsToLower col) k = true →
        rowMatches (keywordsOf q) r = true) := by
  constructor
  · exact rowMatches_eq_any
  · intro q r col v k hcol hk hword hsub
    apply rowMatches_of_keyword _ _ k hk
    have hsub2 : k.toList <:+: col.toList.map toLowerChar := (jsIncludes_iff _ _).mp hsub
    obtain ⟨w, hwinf, hwmap⟩ := infix_map_decomp toLowerChar col.toList k.toList hsub2
    have hesc : ∀ c ∈ w, escapeChar c = [c] := by
      intro c hc
      apply escapeChar_eq_self
      apply hword
      rw [← hwmap]
      exact List.mem_map_of_mem _ hc
    have hwesc : w <:+: jsonEscape col.toList := by
      obtain ⟨s, t, hst⟩ := hwinf
      rw [← hst, jsonEscape_append, jsonEscape_append, jsonEscape_eq_self w hesc]
      exact ⟨jsonEscape s, jsonEscape t, rfl⟩
    have hrow : w <:+: jsonOfRowChars r := hwesc.trans (jsonEscape_col_in_row r col v hcol)
    rw [jsIncludes_iff]
    rw [← hwmap]
    exact isInfix_map toLowerChar _ _ hrow

/-- C9 counterexample: a keyword with an embedded tab is a substring of an
identical column name, yet the row is not selected, because `JSON.stringify`
escapes the tab in the serialized row. -/
theorem rowMatching_column_counterexample :
    "ab\tcd" ∈ keywordsOf "ab\tcd" ∧
    jsIncludes (jsToLower "ab\tcd") "ab\tcd" = true ∧
    rowMatches (keywordsOf "ab\tcd") [("ab\tcd", Value.str "x")] = false := by
  decide

/-- C9 witness: the keyword "cit" matches the row through its column name
"City" although no cell value contains it. -/
theorem rowMatching_on_serialized_row_witness :
    rowMatches (keywordsOf "cit") [("City", Value.str "orange")] = true :=
  rowMatching_on_serialized_row.2 "cit" [("City", Value.str "orange")] "City"
    (Value.str "orange") "cit" (by decide) (by decide) (by decide) (by decide)

end AIAnalysis
